import Mathlib

/-!
A shallow embedding of `src/mini_bash.c`, a minimal command interpreter.

Byte strings of the C program are lists of characters (`List Char`); a C
string is the list of its bytes before the terminating NUL.  Text written
to the two output streams is kept as `String`.
-/

namespace MiniBash

/-! ## Constants -/

/-- The size of the line buffer and of the path buffer, `#define MAX_LINE`. -/
def MAX_LINE : Nat := 1024

/-- The size of the argument vector, `#define MAX_ARGS`. -/
def MAX_ARGS : Int := 128

/-! ## Tokenizer (`parse_line`) -/

/-- Membership in the delimiter set `" \t"` handed to `strtok`. -/
def isDelim (c : Char) : Bool := c == ' ' || c == '\t'

/-- One call of `strtok` on the unread part of the buffer: skip the leading
delimiters; if nothing is left there is no token (`NULL`); otherwise the token
runs up to the next delimiter, that delimiter is overwritten by NUL and the
scan position is put just behind it.  The result is the token together with
the part of the buffer still unread. -/
def strtok (buf : List Char) : Option (List Char × List Char) :=
  match buf.dropWhile isDelim with
  | [] => none
  | c :: cs =>
    some ((c :: cs).takeWhile (fun x => !isDelim x),
          ((c :: cs).dropWhile (fun x => !isDelim x)).drop 1)

/-- The loop of `parse_line`: `room` is `max_args - 1 - argc`, the number of
slots still free, and `token` the result of the latest `strtok` call.  The loop
runs while `token != NULL && argc < max_args - 1`. -/
def parse_loop : Nat → Option (List Char × List Char) → List (List Char)
  | 0, _ => []
  | _ + 1, none => []
  | room + 1, some (token, rest) => token :: parse_loop room (strtok rest)

/-- The argument vector `argv[0 .. argc-1]` filled by
`parse_line(line, argv, max_args)`; `argc` is its length. -/
def parse_line (line : List Char) (max_args : Int) : List (List Char) :=
  parse_loop (max_args - 1).toNat (strtok line)

/-! ## Line reader (`read_line`) -/

/-- The standard input still to come: the bytes that can be read, and what a
read behind the last of them meets, a read error (`failing`) or end of input. -/
structure Stdin where
  /-- The bytes still to be read. -/
  bytes : List Char
  /-- Whether a read behind the last byte fails with an error instead of
  meeting end of input. -/
  failing : Bool
  deriving DecidableEq, Repr

/-- The cast `(int)size` of a `size_t` to the 32-bit `int` that `fgets` takes. -/
def to_int (size : Nat) : Int :=
  if size % 2 ^ 32 < 2 ^ 31 then ((size % 2 ^ 32 : Nat) : Int)
  else ((size % 2 ^ 32 : Nat) : Int) - 2 ^ 32

/-- The copy loop of `fgets` with room for `room` more bytes: it copies bytes
from the stream and stops behind the first newline, when the room is used up,
or when a read meets the end of the stream.  The result is the bytes stored,
the bytes left unread, and whether the end of the stream was met. -/
def fgets_bytes : Nat → List Char → List Char × List Char × Bool
  | 0, input => ([], input, false)
  | _ + 1, [] => ([], [], true)
  | room + 1, c :: cs =>
    if c = '\n' then ([c], cs, false)
    else ((c :: (fgets_bytes room cs).1), (fgets_bytes room cs).2.1,
          (fgets_bytes room cs).2.2)

/-- The library call `fgets(buf, n, stdin)`: `none` is `NULL`, `some` carries
the bytes stored in front of the terminating NUL and the stream left.  With
`n <= 0` it returns `NULL`, with `n = 1` it stores the empty string without
reading; otherwise it copies at most `n - 1` bytes and returns `NULL` when no
byte was stored or when a read error was met during the copy. -/
def fgets (n : Int) (stdin : Stdin) : Option (List Char × Stdin) :=
  if n ≤ 0 then none
  else if n = 1 then some ([], stdin)
  else
    if (fgets_bytes (n - 1).toNat stdin.bytes).1 = [] ∨
        ((fgets_bytes (n - 1).toNat stdin.bytes).2.2 = true ∧ stdin.failing = true) then none
    else some ((fgets_bytes (n - 1).toNat stdin.bytes).1,
               { stdin with bytes := (fgets_bytes (n - 1).toNat stdin.bytes).2.1 })

/-- The C function `strlen`: the number of bytes before the first NUL. -/
def strlen (buf : List Char) : Nat :=
  (buf.takeWhile (fun c => c != '\x00')).length

/-- The function `read_line(buf, size)`: `none` is the return value 0, and
`some (line, rest)` is the return value 1 with `line` the C string then held
by `buf` and `rest` the stream left unread.  When `buf[len - 1]` is a newline it
is overwritten by NUL, which ends the string one byte earlier. -/
def read_line (size : Nat) (stdin : Stdin) : Option (List Char × Stdin) :=
  match fgets (to_int size) stdin with
  | none => none
  | some (buf, rest) =>
    let len := strlen buf
    if len > 0 ∧ buf[len - 1]? = some '\n' then some (buf.take (len - 1), rest)
    else some (buf.take len, rest)

/-! ## The operating system as seen by one command -/

/-- The answers of the operating system to the calls one command makes. -/
structure World where
  /-- The value of `getenv("HOME")`, `none` when it is unset. -/
  home : Option (List Char)
  /-- Whether `access(path, X_OK)` returns 0. -/
  access_x : List Char → Bool
  /-- The call `chdir(dir)` made in working directory `cwd`: the new working
  directory, or the description of the error that `perror` prints. -/
  chdir : (cwd : List Char) → (dir : List Char) → Except String (List Char)
  /-- Whether `fork()` fails, with the error description. -/
  fork_error : Option String
  /-- The fate of `execv(path, argv)` in the child: the error description when
  it returns, otherwise the wait status with which the new program ends. -/
  execv : (path : List Char) → (argv : List (List Char)) → Except String Int
  /-- Whether `waitpid` fails, with the error description. -/
  waitpid_error : Option String

/-- The system calls a command makes, in the order made. -/
inductive Call where
  | access (path : List Char)
  | chdir (dir : List Char)
  | fork
  | execv (path : List Char) (argv : List (List Char))
  | waitpid
  | exit (status : Int)
  deriving DecidableEq, Repr

/-- The observable state of the interpreter. -/
structure Shell where
  /-- Everything written to standard output so far. -/
  out : String
  /-- Everything written to the error stream so far. -/
  err : String
  /-- The working directory. -/
  cwd : List Char
  /-- The system calls made so far. -/
  calls : List Call
  /-- The exit status once the interpreter process has terminated. -/
  exited : Option Int
  deriving DecidableEq, Repr

/-- The library function `perror(s)`: `s`, a colon and a blank, the
description of the error, a newline. -/
def perror (s : String) (description : String) : String :=
  s ++ ": " ++ description ++ "\n"

/-! ## Path resolver (`find_command_path`) -/

/-- The string `snprintf(path, size, ...)` leaves in `path` when the formatted
text is `text`: its first `size - 1` bytes. -/
def snprintf (size : Nat) (text : List Char) : List Char :=
  text.take (size - 1)

/-- Step 2 of `find_command_path`, the search in `/bin`. -/
def find_in_bin (w : World) (cmd : List Char) : Option (List Char) × List (List Char) :=
  let path := snprintf MAX_LINE ("/bin/".toList ++ cmd)
  if w.access_x path then (some path, [path]) else (none, [path])

/-- The function `find_command_path(cmd)`: the path returned (`none` for
`NULL`) and the paths handed to `access`, in order. -/
def find_command_path (w : World) (cmd : List Char) :
    Option (List Char) × List (List Char) :=
  match w.home with
  | some home =>
    let path := snprintf MAX_LINE (home ++ "/".toList ++ cmd)
    if w.access_x path then (some path, [path])
    else ((find_in_bin w cmd).1, path :: (find_in_bin w cmd).2)
  | none => find_in_bin w cmd

/-! ## Wait status -/

/-- Modelled from the spec: the status macros of `<sys/wait.h>` are platform
code outside the repository.  The spec only says that an exit code is the 0-255
exit status and that a signalled child carries its signal number; the Linux
encoding is taken here, with the bit operations on `int` written as floor
division and remainder.  `WTERMSIG(status)` is `status & 0x7f`. -/
def WTERMSIG (status : Int) : Int := status % 128

/-- Modelled from the spec: `WEXITSTATUS(status)` is `(status & 0xff00) >> 8`. -/
def WEXITSTATUS (status : Int) : Int := (status / 256) % 256

/-- Modelled from the spec: `WIFEXITED(status)` is `WTERMSIG(status) == 0`. -/
def WIFEXITED (status : Int) : Bool := WTERMSIG status == 0

/-- Modelled from the spec: `WIFSIGNALED(status)` is
`((signed char) ((status & 0x7f) + 1) >> 1) > 0`. -/
def WIFSIGNALED (status : Int) : Bool :=
  let t := status % 128 + 1
  let sc := if t ≥ 128 then t - 256 else t
  decide (sc / 2 > 0)

/-- Modelled from the spec: the wait status of a child that ended by
`_exit(code)`, `(code & 0xff) << 8`. -/
def W_EXITCODE (code : Int) : Int := (code % 256) * 256

/-- The three outcomes of a child. -/
inductive Outcome where
  | Exited (code : Int)
  | Signaled (signal : Int)
  | Unknown
  deriving DecidableEq, Repr

/-- The `if`/`else if`/`else` chain at the end of `execute_command`. -/
def classify (status : Int) : Outcome :=
  if WIFEXITED status then Outcome.Exited (WEXITSTATUS status)
  else if WIFSIGNALED status then Outcome.Signaled (WTERMSIG status)
  else Outcome.Unknown

/-- The line `printf` writes for an outcome. -/
def report_line : Outcome → String
  | Outcome.Exited code => "Command finished successfully. Return code: " ++ toString code ++ "\n"
  | Outcome.Signaled signal => "Command terminated by signal: " ++ toString signal ++ "\n"
  | Outcome.Unknown => "Command ended (unknown status)\n"

/-- The reporting step of `execute_command`: what it writes to standard output
for the wait status `status`. -/
def report_status (status : Int) : String :=
  report_line (classify status)

/-! ## Command execution (`execute_command`) -/

/-- The part of `execute_command` behind a successful `fork`: the child calls
`execv` and, when that returns, `perror` and `_exit(127)`; the parent waits and
reports. -/
def spawn_and_wait (w : World) (s : Shell) (path : List Char) (argv : List (List Char)) :
    Shell :=
  let child_err := match w.execv path argv with
    | Except.error description => perror "execv" description
    | Except.ok _ => ""
  let status := match w.execv path argv with
    | Except.error _ => W_EXITCODE 127
    | Except.ok st => st
  let s1 : Shell := { s with
    err := s.err ++ child_err,
    calls := s.calls ++ [Call.fork, Call.execv path argv, Call.waitpid] }
  match w.waitpid_error with
  | some description => { s1 with err := s1.err ++ perror "waitpid" description }
  | none => { s1 with out := s1.out ++ report_status status }

/-- The function `execute_command(argv, argc)` with `argc = argv.length`, run
by the interpreter in state `s`. -/
def execute_command (w : World) (s : Shell) (argv : List (List Char)) : Shell :=
  match argv with
  | [] => s
  | argv0 :: args =>
    if argv0 = "exit".toList then
      { s with calls := s.calls ++ [Call.exit 0], exited := some 0 }
    else if argv0 = "cd".toList then
      match args with
      | [] => { s with err := s.err ++ "cd: missing argument\n" }
      | dir :: _ =>
        match w.chdir s.cwd dir with
        | Except.ok cwd => { s with cwd := cwd, calls := s.calls ++ [Call.chdir dir] }
        | Except.error description =>
          { s with err := s.err ++ perror "cd" description,
                   calls := s.calls ++ [Call.chdir dir] }
    else
      let found := find_command_path w argv0
      let s1 : Shell := { s with calls := s.calls ++ found.2.map Call.access }
      match found.1 with
      | none => { s1 with out := s1.out ++ "[" ++ String.mk argv0 ++ "]: Unknown Command\n" }
      | some full_path =>
        match w.fork_error with
        | some description =>
          { s1 with err := s1.err ++ perror "fork" description,
                    calls := s1.calls ++ [Call.fork] }
        | none => spawn_and_wait w s1 full_path (argv0 :: args)

/-! ## Interactive loop (`main`) -/

/-- The specification's reading of the tokenizer, written from its words and
not from the code: cut the line at every space and tab and keep the pieces that
are not empty, that is, the maximal runs of non-delimiter characters in their
left-to-right order. -/
def words (line : List Char) : List (List Char) :=
  (line.splitOnP isDelim).filter (fun w => !w.isEmpty)

/-- The next input line as the specification words it: the bytes in front of
the first newline, or all of the input when it holds no newline. -/
def next_line (stdin : List Char) : List Char :=
  stdin.takeWhile (fun c => c != '\n')

/-- The input behind the next line and its newline. -/
def after_line (stdin : List Char) : List Char :=
  (stdin.dropWhile (fun c => c != '\n')).drop 1

/-- The C string `read_line` leaves in a buffer that `fgets` filled with `buf`. -/
def chomp (buf : List Char) : List Char :=
  if strlen buf > 0 ∧ buf[strlen buf - 1]? = some '\n' then buf.take (strlen buf - 1)
  else buf.take (strlen buf)

/-- The first candidate of the specification, `{HOME}/{command}`. -/
def home_candidate (home cmd : List Char) : List Char :=
  home ++ "/".toList ++ cmd

/-- The second candidate of the specification, `/bin/{command}`. -/
def bin_candidate (cmd : List Char) : List Char :=
  "/bin/".toList ++ cmd

/-! ## Concrete inputs used to exercise the theorems -/

/-- A line of 1024 letters and its newline, one byte more than `fgets` takes. -/
def long_line : List Char := List.replicate 1024 'a' ++ ['\n']

/-- An interpreter that has written nothing and sits in the root directory. -/
def fresh_shell : Shell :=
  { out := "", err := "", cwd := "/".toList, calls := [], exited := none }

/-- A system with `HOME=/home/u` in which `ls` is executable both in the home
directory and in `/bin`, and `cat` only in `/bin`; the programs exit with
status 0. -/
def home_world : World :=
  { home := some "/home/u".toList
    access_x := fun p =>
      p == "/home/u/ls".toList || p == "/bin/ls".toList || p == "/bin/cat".toList
    chdir := fun _ dir => Except.ok dir
    fork_error := none
    execv := fun _ _ => Except.ok 0
    waitpid_error := none }

/-- A system with `HOME` unset in which `/bin/ls` is executable and the program
started by `execv` ends with the wait status `status`. -/
def ending_world (status : Int) : World :=
  { home := none
    access_x := fun p => p == "/bin/ls".toList
    chdir := fun _ dir => Except.ok dir
    fork_error := none
    execv := fun _ _ => Except.ok status
    waitpid_error := none }

/-- A system with `HOME` unset in which `/bin/ls` passes the `access` check but
`execv` of it fails. -/
def exec_fail_world : World :=
  { home := none
    access_x := fun p => p == "/bin/ls".toList
    chdir := fun _ dir => Except.ok dir
    fork_error := none
    execv := fun _ _ => Except.error "Exec format error"
    waitpid_error := none }

/-- The text `./` 508 times over, 1016 bytes. -/
def dots : List Char := (List.replicate 508 "./".toList).flatten

/-- A command name of 1023 bytes, the longest `read_line` can deliver. -/
def long_cmd : List Char := dots ++ "ls-junk".toList

/-- A system with `HOME` unset whose `/bin` holds `ls` and no `ls-junk`; every
path made of `/bin/`, the 508 `./` steps and `ls` names that `ls`. -/
def bin_world : World :=
  { home := none
    access_x := fun p => p == "/bin/".toList ++ dots ++ "ls".toList
    chdir := fun _ dir => Except.ok dir
    fork_error := none
    execv := fun _ _ => Except.ok 0
    waitpid_error := none }

/-! ## Tokenizer: lemmas -/

theorem splitOnP_takeWhile_dropWhile (p : Char → Bool) (xs : List Char) :
    xs.splitOnP p = xs.takeWhile (fun x => !p x) ::
      (match xs.dropWhile (fun x => !p x) with
        | [] => []
        | _ :: r => r.splitOnP p) := by
  induction xs with
  | nil => simp
  | cons x xs ih =>
    rw [List.splitOnP_cons]
    by_cases hx : p x = true
    · simp [hx]
    · simp only [hx, if_false, Bool.false_eq_true]
      rw [ih]
      simp [List.takeWhile_cons, List.dropWhile_cons, hx]

theorem words_nil : words [] = [] := by
  simp [words]

theorem words_cons_delim (c : Char) (cs : List Char) (h : isDelim c = true) :
    words (c :: cs) = words cs := by
  simp [words, List.splitOnP_cons, h]

theorem words_dropWhile (l : List Char) : words (l.dropWhile isDelim) = words l := by
  induction l with
  | nil => rfl
  | cons c cs ih =>
    by_cases h : isDelim c = true
    · rw [List.dropWhile_cons_of_pos h, ih, words_cons_delim c cs h]
    · rw [List.dropWhile_cons_of_neg h]

theorem words_cons_nondelim (c : Char) (cs : List Char) (h : isDelim c = false) :
    words (c :: cs) = (c :: cs).takeWhile (fun x => !isDelim x) ::
      words (((c :: cs).dropWhile (fun x => !isDelim x)).drop 1) := by
  unfold words
  rw [splitOnP_takeWhile_dropWhile isDelim (c :: cs)]
  cases hd : (c :: cs).dropWhile (fun x => !isDelim x) with
  | nil => simp [List.takeWhile_cons, h]
  | cons d r => simp [List.takeWhile_cons, h]

/-- One `strtok` call peels the first word off the line. -/
theorem words_eq_strtok (line : List Char) :
    words line = (match strtok line with
      | none => []
      | some (token, rest) => token :: words rest) := by
  unfold strtok
  cases hd : line.dropWhile isDelim with
  | nil =>
    have := words_dropWhile line
    rw [hd, words_nil] at this
    simp [← this]
  | cons c cs =>
    have hc : isDelim c = false := by
      have := List.head_dropWhile_not isDelim line (by simp [hd])
      simpa [hd] using this
    have := words_dropWhile line
    rw [hd, words_cons_nondelim c cs hc] at this
    simp [← this]

theorem parse_loop_eq_take (room : Nat) (line : List Char) :
    parse_loop room (strtok line) = (words line).take room := by
  induction room generalizing line with
  | zero => simp [parse_loop]
  | succ n ih =>
    rw [words_eq_strtok line]
    cases h : strtok line with
    | none => simp [parse_loop]
    | some tr =>
      obtain ⟨t, r⟩ := tr
      simp [parse_loop, ih]

/-- A token handed out by `strtok` is not empty and holds no delimiter. -/
theorem strtok_token_clean (buf token rest : List Char)
    (h : strtok buf = some (token, rest)) :
    token ≠ [] ∧ ∀ c ∈ token, isDelim c = false := by
  unfold strtok at h
  cases hd : buf.dropWhile isDelim with
  | nil => simp [hd] at h
  | cons c cs =>
    have hc : isDelim c = false := by
      have := List.head_dropWhile_not isDelim buf (by simp [hd])
      simpa [hd] using this
    simp only [hd, Option.some.injEq, Prod.mk.injEq] at h
    obtain ⟨ht, -⟩ := h
    subst ht
    refine ⟨by simp [List.takeWhile_cons, hc], ?_⟩
    intro x hx
    have := List.mem_takeWhile_imp hx
    simpa using this

theorem parse_loop_clean (room : Nat) (tok : Option (List Char × List Char))
    (htok : ∀ t r, tok = some (t, r) → t ≠ [] ∧ ∀ c ∈ t, isDelim c = false) :
    ∀ t ∈ parse_loop room tok, t ≠ [] ∧ ∀ c ∈ t, isDelim c = false := by
  induction room generalizing tok with
  | zero => simp [parse_loop]
  | succ n ih =>
    cases tok with
    | none => simp [parse_loop]
    | some tr =>
      obtain ⟨t0, r0⟩ := tr
      intro t ht
      simp only [parse_loop, List.mem_cons] at ht
      rcases ht with ht | ht
      · subst ht
        exact htok _ _ rfl
      · exact ih (strtok r0) (fun t r h => strtok_token_clean r0 t r h) t ht

theorem parse_line_clean (line : List Char) (max_args : Int) :
    ∀ t ∈ parse_line line max_args, t ≠ [] ∧ ∀ c ∈ t, isDelim c = false :=
  parse_loop_clean _ _ (fun t r h => strtok_token_clean line t r h)

theorem isDelim_false_iff (c : Char) : isDelim c = false ↔ c ≠ ' ' ∧ c ≠ '\t' := by
  simp [isDelim]

theorem parse_line_eq_take (line : List Char) (max_args : Int) :
    parse_line line max_args = (words line).take (max_args - 1).toNat :=
  parse_loop_eq_take _ line

theorem words_of_all_delim (line : List Char) (h : ∀ c ∈ line, isDelim c = true) :
    words line = [] := by
  induction line with
  | nil => exact words_nil
  | cons c cs ih =>
    rw [words_cons_delim c cs (h c (by simp))]
    exact ih (fun x hx => h x (by simp [hx]))

theorem join_filter_nonempty (L : List (List Char)) :
    (L.filter (fun w => !w.isEmpty)).flatten = L.flatten := by
  induction L with
  | nil => rfl
  | cons a L ih =>
    cases a with
    | nil => simpa using ih
    | cons x xs => simp [List.filter_cons, ih]

theorem splitOnP_join (p : Char → Bool) (l : List Char) :
    (l.splitOnP p).flatten = l.filter (fun c => !p c) := by
  induction l with
  | nil => simp
  | cons x xs ih =>
    rw [List.splitOnP_cons]
    by_cases hx : p x = true
    · simp [hx, ih]
    · have hne := List.splitOnP_ne_nil p xs
      cases hs : xs.splitOnP p with
      | nil => exact absurd hs hne
      | cons a L =>
        rw [hs] at ih
        simp [hx, ← ih]

theorem words_join (line : List Char) :
    (words line).flatten = line.filter (fun c => !isDelim c) := by
  unfold words
  rw [join_filter_nonempty, splitOnP_join]

/-! ## Line reader: lemmas -/

theorem read_line_eq (size : Nat) (stdin : Stdin) :
    read_line size stdin = (fgets (to_int size) stdin).map (fun br => (chomp br.1, br.2)) := by
  unfold read_line chomp
  cases h : fgets (to_int size) stdin with
  | none => rfl
  | some br =>
    obtain ⟨buf, rest⟩ := br
    simp only [Option.map_some']
    split <;> rfl

theorem fgets_bytes_append (room : Nat) (input : List Char) :
    (fgets_bytes room input).1 ++ (fgets_bytes room input).2.1 = input := by
  induction room generalizing input with
  | zero => simp [fgets_bytes]
  | succ n ih =>
    cases input with
    | nil => simp [fgets_bytes]
    | cons c cs =>
      by_cases hc : c = '\n'
      · simp [fgets_bytes, hc]
      · simp [fgets_bytes, hc, ih cs]

theorem strlen_cons (c : Char) (buf : List Char) (h : c ≠ '\x00') :
    strlen (c :: buf) = strlen buf + 1 := by
  simp [strlen, List.takeWhile_cons, h]

theorem chomp_cons (c : Char) (buf : List Char) (h0 : c ≠ '\x00') (hn : c ≠ '\n') :
    chomp (c :: buf) = c :: chomp buf := by
  unfold chomp
  rw [strlen_cons c buf h0]
  by_cases hz : strlen buf = 0
  · simp [hz, hn]
  · obtain ⟨k, hk⟩ := Nat.exists_eq_succ_of_ne_zero hz
    simp [hk]
    split <;> simp

theorem chomp_fgets_bytes (room : Nat) (input : List Char) :
    chomp (fgets_bytes room input).1 =
      ((next_line input).take room).takeWhile (fun c => c != '\x00') := by
  induction room generalizing input with
  | zero => simp [fgets_bytes, chomp, strlen]
  | succ n ih =>
    cases input with
    | nil => simp [fgets_bytes, chomp, strlen, next_line]
    | cons c cs =>
      by_cases hc : c = '\n'
      · subst hc
        simp [fgets_bytes, chomp, strlen, next_line]
      · by_cases h0 : c = '\x00'
        · subst h0
          simp [fgets_bytes, chomp, strlen, next_line]
        · simp only [fgets_bytes, hc, if_false]
          rw [chomp_cons c _ h0 hc, ih cs]
          simp [next_line, List.takeWhile_cons, hc, h0]

theorem fgets_bytes_length (room : Nat) (input : List Char) :
    (fgets_bytes room input).1.length ≤ room := by
  induction room generalizing input with
  | zero => simp [fgets_bytes]
  | succ n ih =>
    cases input with
    | nil => simp [fgets_bytes]
    | cons c cs =>
      by_cases hc : c = '\n'
      · simp [fgets_bytes, hc]
      · simpa [fgets_bytes, hc] using ih cs

theorem fgets_bytes_eq_nil (room : Nat) (input : List Char) :
    (fgets_bytes (room + 1) input).1 = [] ↔ input = [] := by
  cases input with
  | nil => simp [fgets_bytes]
  | cons c cs => by_cases hc : c = '\n' <;> simp [fgets_bytes, hc]

theorem fgets_bytes_end (room : Nat) (input : List Char) :
    (fgets_bytes room input).2.2 = true ↔ '\n' ∉ input ∧ input.length < room := by
  induction room generalizing input with
  | zero => simp [fgets_bytes]
  | succ n ih =>
    cases input with
    | nil => simp [fgets_bytes]
    | cons c cs =>
      by_cases hc : c = '\n'
      · subst hc
        simp [fgets_bytes]
      · have hc2 : ¬ ('\n' = c) := fun e => hc e.symm
        simp [fgets_bytes, hc, hc2, ih cs]

theorem fgets_bytes_rest (room : Nat) (input : List Char)
    (h : (next_line input).length < room) :
    (fgets_bytes room input).2.1 = after_line input := by
  induction room generalizing input with
  | zero => omega
  | succ n ih =>
    cases input with
    | nil => simp [fgets_bytes, after_line]
    | cons c cs =>
      by_cases hc : c = '\n'
      · subst hc
        simp [fgets_bytes, after_line]
      · have hlen : (next_line cs).length < n := by
          simp [next_line, List.takeWhile_cons, hc] at h
          simpa [next_line] using h
        simp only [fgets_bytes, hc, if_false]
        rw [ih cs hlen]
        simp [after_line, List.dropWhile_cons, hc]

theorem fgets_bytes_rest_full (room : Nat) (input : List Char)
    (h : room ≤ (next_line input).length) :
    (fgets_bytes room input).2.1 = input.drop room := by
  induction room generalizing input with
  | zero => simp [fgets_bytes]
  | succ n ih =>
    cases input with
    | nil => simp [fgets_bytes]
    | cons c cs =>
      by_cases hc : c = '\n'
      · subst hc
        simp [next_line] at h
      · have hlen : n ≤ (next_line cs).length := by
          simp [next_line, List.takeWhile_cons, hc] at h
          simpa [next_line] using h
        simp only [fgets_bytes, hc, if_false]
        rw [ih cs hlen]
        simp

theorem to_int_MAX_LINE : to_int MAX_LINE = 1024 := by
  decide

/-- What `read_line` does with the 1024-byte buffer, in closed form. -/
theorem read_line_max (stdin : Stdin) :
    read_line MAX_LINE stdin =
      if stdin.bytes = [] ∨
          (stdin.failing = true ∧ '\n' ∉ stdin.bytes ∧ stdin.bytes.length < 1023) then none
      else some (((next_line stdin.bytes).take 1023).takeWhile (fun x => x != '\x00'),
                 { stdin with bytes := (fgets_bytes 1023 stdin.bytes).2.1 }) := by
  rw [read_line_eq, to_int_MAX_LINE]
  have hroom : ((1024 : Int) - 1).toNat = 1023 := by decide
  have hnil := fgets_bytes_eq_nil 1022 stdin.bytes
  have hend := fgets_bytes_end 1023 stdin.bytes
  have hcond : ((fgets_bytes 1023 stdin.bytes).1 = [] ∨
      ((fgets_bytes 1023 stdin.bytes).2.2 = true ∧ stdin.failing = true)) ↔
      (stdin.bytes = [] ∨
        (stdin.failing = true ∧ '\n' ∉ stdin.bytes ∧ stdin.bytes.length < 1023)) := by
    rw [hnil, hend]
    tauto
  simp only [fgets, hroom, show ¬ ((1024 : Int) ≤ 0) from by decide,
    show ¬ ((1024 : Int) = 1) from by decide, if_false]
  by_cases h : stdin.bytes = [] ∨
      (stdin.failing = true ∧ '\n' ∉ stdin.bytes ∧ stdin.bytes.length < 1023)
  · rw [if_pos (hcond.2 h), if_pos h]
    rfl
  · rw [if_neg (fun h2 => h (hcond.1 h2)), if_neg h]
    simp only [Option.map_some', chomp_fgets_bytes]

/-! ## Command execution: lemmas -/

theorem snprintf_fits (size : Nat) (text : List Char) (h : text.length ≤ size - 1) :
    snprintf size text = text :=
  List.take_of_length_le h

theorem spawn_and_wait_exited (w : World) (s : Shell) (path : List Char)
    (argv : List (List Char)) : (spawn_and_wait w s path argv).exited = s.exited := by
  unfold spawn_and_wait
  cases w.waitpid_error <;> rfl

/-- C1: when the line has fewer than `max_tokens` words, so that nothing is
cut off, `parse_line` returns exactly the maximal runs of characters other than
space and tab, in their order: every token is non-empty and free of space and
tab, no empty token comes from leading, trailing or repeated delimiters (the
tokens put together are the line with its delimiters removed), and `argc` is
the number of such runs. -/
theorem parse_line_maximal_runs (line : List Char) (max_tokens : Int)
    (h : ((words line).length : Int) < max_tokens) :
    parse_line line max_tokens = words line ∧
    (parse_line line max_tokens).length = (words line).length ∧
    (∀ t ∈ parse_line line max_tokens, t ≠ [] ∧ ∀ c ∈ t, c ≠ ' ' ∧ c ≠ '\t') ∧
    (parse_line line max_tokens).flatten = line.filter (fun c => !isDelim c) := by
  have heq : parse_line line max_tokens = words line := by
    rw [parse_line_eq_take]
    apply List.take_of_length_le
    omega
  refine ⟨heq, by rw [heq], ?_, ?_⟩
  · intro t ht
    obtain ⟨hne, hc⟩ := parse_line_clean line max_tokens t ht
    exact ⟨hne, fun c hcm => (isDelim_false_iff c).1 (hc c hcm)⟩
  · rw [heq]
    exact words_join line

/-- C1 at the line of the specification: two leading blanks, `ls`, three
blanks, `-l`, a tab, `/tmp` and a trailing blank give `ls`, `-l`, `/tmp`. -/
theorem parse_line_maximal_runs_witness :
    ((words "  ls   -l\t/tmp ".toList).length : Int) < MAX_ARGS ∧
    parse_line "  ls   -l\t/tmp ".toList MAX_ARGS = words "  ls   -l\t/tmp ".toList ∧
    words "  ls   -l\t/tmp ".toList = ["ls".toList, "-l".toList, "/tmp".toList] :=
  ⟨by decide,
   (parse_line_maximal_runs "  ls   -l\t/tmp ".toList MAX_ARGS (by decide)).1,
   by decide⟩

/-- C7: for `max_tokens >= 1`, `parse_line` never yields more than
`max_tokens - 1` tokens; its result is the first `max_tokens - 1` words of the
line in order, so that when the line has more words than that exactly
`max_tokens - 1` tokens come back and the rest of the input is dropped; with
`MAX_ARGS = 128` at most 127 tokens. -/
theorem parse_line_at_most (line : List Char) (max_tokens : Int) (h : 1 ≤ max_tokens) :
    ((parse_line line max_tokens).length : Int) ≤ max_tokens - 1 ∧
    parse_line line max_tokens = (words line).take (max_tokens - 1).toNat ∧
    (max_tokens - 1 < ((words line).length : Int) →
      ((parse_line line max_tokens).length : Int) = max_tokens - 1) ∧
    (parse_line line MAX_ARGS).length ≤ 127 := by
  have heq := parse_line_eq_take line max_tokens
  have h128 := parse_line_eq_take line MAX_ARGS
  refine ⟨?_, heq, ?_, ?_⟩
  · rw [heq, List.length_take]
    omega
  · intro hlt
    rw [heq, List.length_take]
    omega
  · rw [h128, List.length_take]
    simp only [MAX_ARGS]
    omega

/-- C7 with room for two tokens and a line of four words. -/
theorem parse_line_at_most_witness :
    (1 : Int) ≤ 3 ∧
    parse_line "a b c d".toList 3 = ["a".toList, "b".toList] ∧
    ((parse_line "a b c d".toList 3).length : Int) ≤ 3 - 1 :=
  ⟨by decide, by decide, (parse_line_at_most "a b c d".toList 3 (by decide)).1⟩

/-- C8: a line that is empty or made of spaces and tabs only gives the empty
argument vector, and `execute_command` on the empty argument vector changes
nothing: no output on either stream, no system call, same working directory. -/
theorem blank_line_is_noop (line : List Char) (max_args : Int) (w : World) (s : Shell)
    (h : ∀ c ∈ line, c = ' ' ∨ c = '\t') :
    parse_line line max_args = [] ∧
    (parse_line line max_args).length = 0 ∧
    execute_command w s [] = s ∧
    execute_command w s (parse_line line max_args) = s := by
  have hw : words line = [] := by
    apply words_of_all_delim
    intro c hc
    rcases h c hc with rfl | rfl <;> rfl
  have hp : parse_line line max_args = [] := by
    rw [parse_line_eq_take, hw, List.take_nil]
  refine ⟨hp, by rw [hp]; rfl, rfl, ?_⟩
  rw [hp]
  rfl

/-- C8 at a line of blanks and a tab. -/
theorem blank_line_is_noop_witness :
    (∀ c ∈ " \t  ".toList, c = ' ' ∨ c = '\t') ∧
    parse_line " \t  ".toList MAX_ARGS = [] ∧
    execute_command home_world fresh_shell (parse_line " \t  ".toList MAX_ARGS) = fresh_shell :=
  ⟨by decide,
   (blank_line_is_noop " \t  ".toList MAX_ARGS home_world fresh_shell (by decide)).1,
   (blank_line_is_noop " \t  ".toList MAX_ARGS home_world fresh_shell (by decide)).2.2.2⟩

/-! ## Claims about command execution -/

set_option maxRecDepth 100000 in
/-- C4 fails on the code: with `HOME` unset the 1023-byte command `long_cmd` is
neither `exit` nor `cd` and is not executable in `/bin` (there is no home
directory to look in), yet `execute_command` prints no unknown-command
diagnostic: because `find_command_path` probes the candidate cut to 1023 bytes,
which names `/bin/ls`, it forks, runs that program and prints an outcome
report. -/
theorem unknown_command_not_reported :
    long_cmd ≠ "exit".toList ∧ long_cmd ≠ "cd".toList ∧
    bin_world.home = none ∧
    bin_world.access_x (bin_candidate long_cmd) = false ∧
    (execute_command bin_world fresh_shell [long_cmd]).out ≠
      fresh_shell.out ++ "[" ++ String.mk long_cmd ++ "]: Unknown Command\n" ∧
    (execute_command bin_world fresh_shell [long_cmd]).out =
      "Command finished successfully. Return code: 0\n" ∧
    Call.fork ∈ (execute_command bin_world fresh_shell [long_cmd]).calls ∧
    Call.execv ("/bin/".toList ++ dots ++ "ls".toList) [long_cmd] ∈
      (execute_command bin_world fresh_shell [long_cmd]).calls := by
  decide

/-- C6: for an argument vector with `argv[0] = cd` and fewer than 2 elements,
`execute_command` appends exactly `cd: missing argument` and a newline to the
error stream and changes nothing else: no `chdir` or any other system call, the
same working directory, nothing on standard output. -/
theorem cd_missing_argument (w : World) (s : Shell) (argv : List (List Char))
    (hcd : argv.head? = some "cd".toList) (hlen : argv.length < 2) :
    execute_command w s argv = { s with err := s.err ++ "cd: missing argument\n" } := by
  cases argv with
  | nil => simp at hcd
  | cons argv0 args =>
    have h0 : argv0 = "cd".toList := by simpa using hcd
    cases args with
    | cons a more =>
      simp only [List.length_cons] at hlen
      omega
    | nil =>
      subst h0
      unfold execute_command
      simp only [show ¬ ("cd".toList = "exit".toList) from by decide, if_false, if_true]

/-- C6 at a bare `cd` on a system where every directory change would succeed. -/
theorem cd_missing_argument_witness :
    ["cd".toList].head? = some "cd".toList ∧ ["cd".toList].length < 2 ∧
    execute_command home_world fresh_shell ["cd".toList] =
      { fresh_shell with err := "cd: missing argument\n" } :=
  ⟨rfl, by decide,
   by
    rw [cd_missing_argument home_world fresh_shell ["cd".toList] rfl (by decide)]
    decide⟩

/-! ## Claims about path resolution -/

/-- C2: when both candidate paths fit in the 1024-byte path buffer,
`find_command_path` applies the two-candidate policy, first match winning: with
`HOME` set and `{HOME}/{command}` executable the result is that path, whether
or not `/bin/{command}` is executable too; with `HOME` unset or the home
candidate not executable the result is `/bin/{command}` when that is
executable; the result is `NULL` exactly when no checked candidate is
executable; and `access` is called on no path other than these two. -/
theorem find_command_path_policy (w : World) (cmd : List Char)
    (hfit_home : ∀ home, w.home = some home → (home_candidate home cmd).length ≤ 1023)
    (hfit_bin : (bin_candidate cmd).length ≤ 1023) :
    (∀ home, w.home = some home → w.access_x (home_candidate home cmd) = true →
      find_command_path w cmd = (some (home_candidate home cmd), [home_candidate home cmd])) ∧
    ((w.home = none ∨ ∃ home, w.home = some home ∧ w.access_x (home_candidate home cmd) = false) →
      w.access_x (bin_candidate cmd) = true →
      (find_command_path w cmd).1 = some (bin_candidate cmd)) ∧
    ((find_command_path w cmd).1 = none ↔
      (∀ home, w.home = some home → w.access_x (home_candidate home cmd) = false) ∧
      w.access_x (bin_candidate cmd) = false) ∧
    ((find_command_path w cmd).1 = none ↔
      ∀ p ∈ (find_command_path w cmd).2, w.access_x p = false) ∧
    (∀ p ∈ (find_command_path w cmd).2,
      p = bin_candidate cmd ∨ ∃ home, w.home = some home ∧ p = home_candidate home cmd) := by
  have hbin : find_in_bin w cmd =
      if w.access_x (bin_candidate cmd) = true then
        (some (bin_candidate cmd), [bin_candidate cmd])
      else (none, [bin_candidate cmd]) := by
    have e : snprintf MAX_LINE ("/bin/".toList ++ cmd) = bin_candidate cmd :=
      snprintf_fits _ _ hfit_bin
    simp only [find_in_bin, e]
  cases hh : w.home with
  | none =>
    have hfind : find_command_path w cmd = find_in_bin w cmd := by
      simp only [find_command_path, hh]
    rw [hfind, hbin]
    by_cases hb : w.access_x (bin_candidate cmd) = true
    · simp [hb]
    · simp [hb]
  | some home =>
    have hfind : find_command_path w cmd =
        if w.access_x (home_candidate home cmd) = true then
          (some (home_candidate home cmd), [home_candidate home cmd])
        else ((find_in_bin w cmd).1, home_candidate home cmd :: (find_in_bin w cmd).2) := by
      have e : snprintf MAX_LINE (home ++ "/".toList ++ cmd) = home_candidate home cmd :=
        snprintf_fits _ _ (hfit_home home hh)
      simp only [find_command_path, hh, e]
    rw [hfind, hbin]
    by_cases ha : w.access_x (home_candidate home cmd) = true
    · simp [ha]
    · by_cases hb : w.access_x (bin_candidate cmd) = true
      · simp [ha, hb]
      · simp [ha, hb]

/-- C2 for `ls`, executable both in the home directory and in `/bin`: the home
candidate wins and `/bin/ls` is not even probed. -/
theorem find_command_path_policy_witness :
    (∀ home, home_world.home = some home → (home_candidate home "ls".toList).length ≤ 1023) ∧
    (bin_candidate "ls".toList).length ≤ 1023 ∧
    home_world.access_x (bin_candidate "ls".toList) = true ∧
    find_command_path home_world "ls".toList =
      (some "/home/u/ls".toList, ["/home/u/ls".toList]) :=
  ⟨by intro home h; cases h; decide,
   by decide, by decide,
   (find_command_path_policy home_world "ls".toList (by intro home h; cases h; decide)
      (by decide)).1 "/home/u".toList rfl (by decide)⟩

set_option maxRecDepth 100000 in
/-- C9 fails on the code: with `HOME` unset and the 1023-byte command
`long_cmd`, which `read_line` and `parse_line` deliver as `argv[0]`, the
candidate `/bin/{command}` takes 1028 bytes; `snprintf` keeps its first 1023,
and `find_command_path` probes and returns that shortened path, which names
`/bin/ls`, although `/bin/{command}` itself is not executable; and
`execute_command` then runs that other program. -/
theorem find_command_path_truncates :
    long_cmd.length = 1023 ∧
    (read_line MAX_LINE { bytes := long_cmd ++ ['\n'], failing := false }).map
        (fun r => parse_line r.1 MAX_ARGS) =
      some [long_cmd] ∧
    bin_world.home = none ∧
    bin_world.access_x (bin_candidate long_cmd) = false ∧
    find_command_path bin_world long_cmd =
      (some ("/bin/".toList ++ dots ++ "ls".toList), ["/bin/".toList ++ dots ++ "ls".toList]) ∧
    "/bin/".toList ++ dots ++ "ls".toList ≠ bin_candidate long_cmd ∧
    execute_command bin_world fresh_shell [long_cmd] =
      { fresh_shell with
        out := "Command finished successfully. Return code: 0\n",
        calls := [Call.access ("/bin/".toList ++ dots ++ "ls".toList), Call.fork,
                  Call.execv ("/bin/".toList ++ dots ++ "ls".toList) [long_cmd],
                  Call.waitpid] } := by
  decide

/-! ## Claims about the outcome report -/

/-- C3: when `execute_command` has resolved a command that is no builtin, has
forked and has waited with success, then for every integer wait status of the
child (the one the started program ends with, or that of `_exit(127)` when
`execv` failed) it appends exactly one report line to standard output, by one
of three exclusive cases: when `WIFEXITED` holds, the return-code line with a
code from 0 to 255; when it does not and `WIFSIGNALED` holds, the signal line;
otherwise the unknown-status line.  `WIFEXITED` and `WIFSIGNALED` never hold
together.  A child that exits with status 7 gives return code 7, a child killed
by signal 9 gives signal 9, and a child whose `execv` failed gives return code
127. -/
theorem report_status_exactly_one (w : World) (s : Shell) (argv0 : List Char)
    (args : List (List Char)) (full_path : List Char) (status : Int)
    (hexit : argv0 ≠ "exit".toList) (hcd : argv0 ≠ "cd".toList)
    (hfound : (find_command_path w argv0).1 = some full_path)
    (hfork : w.fork_error = none) (hwait : w.waitpid_error = none)
    (hchild : w.execv full_path (argv0 :: args) = Except.ok status ∨
      (status = W_EXITCODE 127 ∧
        ∃ description, w.execv full_path (argv0 :: args) = Except.error description)) :
    (execute_command w s (argv0 :: args)).out = s.out ++ report_status status ∧
    (execute_command w s (argv0 :: args)).calls =
      s.calls ++ (find_command_path w argv0).2.map Call.access ++
        [Call.fork, Call.execv full_path (argv0 :: args), Call.waitpid] ∧
    (execute_command w s (argv0 :: args)).cwd = s.cwd ∧
    (execute_command w s (argv0 :: args)).exited = s.exited ∧
    ((WIFEXITED status = true ∧
        classify status = Outcome.Exited (WEXITSTATUS status) ∧
        0 ≤ WEXITSTATUS status ∧ WEXITSTATUS status ≤ 255 ∧
        (execute_command w s (argv0 :: args)).out =
          s.out ++ ("Command finished successfully. Return code: " ++
            toString (WEXITSTATUS status) ++ "\n")) ∨
      (WIFEXITED status = false ∧ WIFSIGNALED status = true ∧
        classify status = Outcome.Signaled (WTERMSIG status) ∧
        1 ≤ WTERMSIG status ∧ WTERMSIG status ≤ 126 ∧
        (execute_command w s (argv0 :: args)).out =
          s.out ++ ("Command terminated by signal: " ++
            toString (WTERMSIG status) ++ "\n")) ∨
      (WIFEXITED status = false ∧ WIFSIGNALED status = false ∧
        classify status = Outcome.Unknown ∧
        (execute_command w s (argv0 :: args)).out =
          s.out ++ "Command ended (unknown status)\n")) ∧
    ¬ (WIFEXITED status = true ∧ WIFSIGNALED status = true) ∧
    (∀ code : Int, 0 ≤ code → code ≤ 255 → status = W_EXITCODE code →
      (execute_command w s (argv0 :: args)).out =
        s.out ++ ("Command finished successfully. Return code: " ++
          toString code ++ "\n")) ∧
    (∀ signal : Int, 1 ≤ signal → signal ≤ 126 →
      (status = signal ∨ status = signal + 128) →
      (execute_command w s (argv0 :: args)).out =
        s.out ++ ("Command terminated by signal: " ++ toString signal ++ "\n")) ∧
    ((∃ description, w.execv full_path (argv0 :: args) = Except.error description) →
      (execute_command w s (argv0 :: args)).out =
        s.out ++ "Command finished successfully. Return code: 127\n") := by
  have hrun : execute_command w s (argv0 :: args) =
      spawn_and_wait w { s with calls := s.calls ++ (find_command_path w argv0).2.map Call.access }
        full_path (argv0 :: args) := by
    unfold execute_command
    simp only [hexit, hcd, if_false, hfound, hfork]
  have hout : (execute_command w s (argv0 :: args)).out = s.out ++ report_status status := by
    rw [hrun]
    rcases hchild with hok | ⟨hst, d, herr⟩
    · simp only [spawn_and_wait, hok, hwait]
    · simp only [spawn_and_wait, herr, hwait, hst]
  have hcalls : (execute_command w s (argv0 :: args)).calls =
      s.calls ++ (find_command_path w argv0).2.map Call.access ++
        [Call.fork, Call.execv full_path (argv0 :: args), Call.waitpid] := by
    rw [hrun]
    simp only [spawn_and_wait, hwait]
  have hcwd : (execute_command w s (argv0 :: args)).cwd = s.cwd := by
    rw [hrun]
    simp only [spawn_and_wait, hwait]
  have hexited : (execute_command w s (argv0 :: args)).exited = s.exited := by
    rw [hrun, spawn_and_wait_exited]
  have hex : 0 ≤ WEXITSTATUS status ∧ WEXITSTATUS status ≤ 255 := by
    unfold WEXITSTATUS
    omega
  have hsig : WIFSIGNALED status = true ↔ 1 ≤ WTERMSIG status ∧ WTERMSIG status ≤ 126 := by
    unfold WIFSIGNALED WTERMSIG
    simp only [decide_eq_true_eq]
    split <;> omega
  have hexd : WIFEXITED status = true ↔ WTERMSIG status = 0 := by
    unfold WIFEXITED
    simp
  have hcode : ∀ code : Int, 0 ≤ code → code ≤ 255 → status = W_EXITCODE code →
      report_status status =
        "Command finished successfully. Return code: " ++ toString code ++ "\n" := by
    intro code h0 h255 hst
    have h1 : WIFEXITED status = true := by
      rw [hexd, hst]
      unfold WTERMSIG W_EXITCODE
      omega
    have h2 : WEXITSTATUS status = code := by
      rw [hst]
      unfold WEXITSTATUS W_EXITCODE
      omega
    simp [report_status, classify, h1, h2, report_line]
  refine ⟨hout, hcalls, hcwd, hexited, ?_, ?_, ?_, ?_, ?_⟩
  · rw [hout]
    by_cases h1 : WIFEXITED status = true
    · left
      refine ⟨h1, ?_, hex.1, hex.2, ?_⟩
      · simp [classify, h1]
      · simp [report_status, classify, h1, report_line]
    · have h1f : WIFEXITED status = false := by simpa using h1
      right
      by_cases h2 : WIFSIGNALED status = true
      · left
        refine ⟨h1f, h2, ?_, (hsig.1 h2).1, (hsig.1 h2).2, ?_⟩
        · simp [classify, h1f, h2]
        · simp [report_status, classify, h1f, h2, report_line]
      · have h2f : WIFSIGNALED status = false := by simpa using h2
        right
        refine ⟨h1f, h2f, ?_, ?_⟩
        · simp [classify, h1f, h2f]
        · simp [report_status, classify, h1f, h2f, report_line]
  · rintro ⟨h1, h2⟩
    have a := hexd.1 h1
    have b := hsig.1 h2
    omega
  · intro code h0 h255 hst
    rw [hout, hcode code h0 h255 hst]
  · intro signal h1 h126 hst
    have hterm : WTERMSIG status = signal := by
      unfold WTERMSIG
      rcases hst with e | e <;> omega
    have hne : WIFEXITED status = false := by
      have : ¬ (WIFEXITED status = true) := by
        rw [hexd, hterm]
        omega
      simpa using this
    have hs : WIFSIGNALED status = true := by
      rw [hsig, hterm]
      exact ⟨h1, h126⟩
    rw [hout]
    simp [report_status, classify, hne, hs, hterm, report_line]
  · rintro ⟨d, herr⟩
    have hst : status = W_EXITCODE 127 := by
      rcases hchild with hok | ⟨hst, -⟩
      · rw [herr] at hok
        cases hok
      · exact hst
    rw [hout, hcode 127 (by decide) (by decide) hst]
    rfl

/-- C3 for `ls` run as `/bin/ls`: a child that exits with status 7, a child
killed by signal 9, and a child whose `execv` fails. -/
theorem report_status_exactly_one_witness :
    (find_command_path (ending_world (W_EXITCODE 7)) "ls".toList).1 = some "/bin/ls".toList ∧
    (execute_command (ending_world (W_EXITCODE 7)) fresh_shell ["ls".toList]).out =
      fresh_shell.out ++ "Command finished successfully. Return code: 7\n" ∧
    (execute_command (ending_world 9) fresh_shell ["ls".toList]).out =
      fresh_shell.out ++ "Command terminated by signal: 9\n" ∧
    (execute_command exec_fail_world fresh_shell ["ls".toList]).out =
      fresh_shell.out ++ "Command finished successfully. Return code: 127\n" :=
  ⟨by decide,
   (report_status_exactly_one (ending_world (W_EXITCODE 7)) fresh_shell "ls".toList []
      "/bin/ls".toList (W_EXITCODE 7) (by decide) (by decide) (by decide) rfl rfl
      (Or.inl rfl)).2.2.2.2.2.2.1 7 (by decide) (by decide) rfl,
   (report_status_exactly_one (ending_world 9) fresh_shell "ls".toList []
      "/bin/ls".toList 9 (by decide) (by decide) (by decide) rfl rfl
      (Or.inl rfl)).2.2.2.2.2.2.2.1 9 (by decide) (by decide) (Or.inl rfl),
   (report_status_exactly_one exec_fail_world fresh_shell "ls".toList []
      "/bin/ls".toList (W_EXITCODE 127) (by decide) (by decide) (by decide) rfl rfl
      (Or.inr ⟨rfl, "Exec format error", rfl⟩)).2.2.2.2.2.2.2.2
      ⟨"Exec format error", rfl⟩⟩

/-! ## Claims about the line reader -/

set_option maxRecDepth 100000 in
/-- C10 fails as stated: on an input line of 1024 letters and a newline
`read_line` with the 1024-byte buffer succeeds with the first 1023 letters
only, which is not the input line with its newline stripped, and the last
letter and the newline stay in the input; and on the two bytes `ls` followed by
a read error it reports failure although bytes could be read. -/
theorem read_line_cuts_long_line :
    read_line MAX_LINE { bytes := long_line, failing := false } =
      some (List.replicate 1023 'a', { bytes := ['a', '\n'], failing := false }) ∧
    next_line long_line = List.replicate 1024 'a' ∧
    List.replicate 1023 'a' ≠ next_line long_line ∧
    read_line MAX_LINE { bytes := "ls".toList, failing := true } = none := by
  decide

/-- C10 as amended: `read_line` with the 1024-byte buffer reports failure
exactly when no byte is left to read (end of input or read error at once) or a
read error is met before a newline or 1023 bytes have been read.  When it
succeeds the line has at most 1023 bytes and no newline: it is the part in
front of the first NUL byte of the first 1023 bytes of the next input line.  So
when the next input line has at most 1023 bytes in front of its newline or of
the end of input, none of them NUL, the result is that line with its newline
stripped, or unchanged when the input ends without newline.  The input left is
what follows the newline when the line has at most 1022 bytes, and otherwise
the input behind its first 1023 bytes, so the remainder of a longer line stays
to be read. -/
theorem read_line_next_line (stdin : Stdin) :
    (read_line MAX_LINE stdin = none ↔
      stdin.bytes = [] ∨
      (stdin.failing = true ∧ '\n' ∉ stdin.bytes ∧ stdin.bytes.length < 1023)) ∧
    (∀ line rest, read_line MAX_LINE stdin = some (line, rest) →
      line.length ≤ 1023 ∧ '\n' ∉ line ∧
      line = ((next_line stdin.bytes).take 1023).takeWhile (fun c => c != '\x00') ∧
      ((next_line stdin.bytes).length ≤ 1023 → '\x00' ∉ next_line stdin.bytes →
        line = next_line stdin.bytes) ∧
      ((next_line stdin.bytes).length ≤ 1022 → rest.bytes = after_line stdin.bytes) ∧
      (1023 ≤ (next_line stdin.bytes).length → rest.bytes = stdin.bytes.drop 1023) ∧
      rest.failing = stdin.failing) := by
  rw [read_line_max]
  by_cases hfail : stdin.bytes = [] ∨
      (stdin.failing = true ∧ '\n' ∉ stdin.bytes ∧ stdin.bytes.length < 1023)
  · simp only [hfail, if_true, true_iff]
    refine ⟨trivial, ?_⟩
    intro line rest h
    cases h
  · simp only [hfail, if_false]
    refine ⟨by simp, ?_⟩
    intro line rest h
    simp only [Option.some.injEq, Prod.mk.injEq] at h
    obtain ⟨hl, hr⟩ := h
    have hsub : ∀ x ∈ line, x ∈ next_line stdin.bytes := by
      intro x hx
      rw [← hl] at hx
      exact List.mem_of_mem_take ((List.takeWhile_sublist _).subset hx)
    refine ⟨?_, ?_, hl.symm, ?_, ?_, ?_, ?_⟩
    · rw [← hl]
      exact le_trans (List.takeWhile_sublist _).length_le (List.length_take_le _ _)
    · intro hmem
      have := List.mem_takeWhile_imp (hsub _ hmem)
      simp at this
    · intro hlen hnul
      rw [← hl, List.take_of_length_le hlen]
      rw [List.takeWhile_eq_self_iff]
      intro x hx
      have : x ≠ '\x00' := fun e => hnul (e ▸ hx)
      simpa using this
    · intro hlen
      rw [← hr]
      exact fgets_bytes_rest 1023 stdin.bytes (by omega)
    · intro hlen
      rw [← hr]
      exact fgets_bytes_rest_full 1023 stdin.bytes hlen
    · rw [← hr]

/-- C10 as amended, at an input of two lines. -/
theorem read_line_next_line_witness :
    read_line MAX_LINE { bytes := "ls -l\ncd /tmp\n".toList, failing := true } =
      some ("ls -l".toList, { bytes := "cd /tmp\n".toList, failing := true }) ∧
    "ls -l".toList = next_line "ls -l\ncd /tmp\n".toList ∧
    "cd /tmp\n".toList = after_line "ls -l\ncd /tmp\n".toList :=
  ⟨by decide,
   ((read_line_next_line { bytes := "ls -l\ncd /tmp\n".toList, failing := true }).2
      "ls -l".toList { bytes := "cd /tmp\n".toList, failing := true }
      (by decide)).2.2.2.1 (by decide) (by decide),
   ((read_line_next_line { bytes := "ls -l\ncd /tmp\n".toList, failing := true }).2
      "ls -l".toList { bytes := "cd /tmp\n".toList, failing := true }
      (by decide)).2.2.2.2.1 (by decide)⟩

end MiniBash
